import Mathlib

/-!
Verification of the botkube-interactive interactive-selection core.

This file is a shallow embedding of the selection state machine and
command-builder shared by the plugins of this repository:

* the `msg` plugin variant with script-discovered parameter schemas
  (`src/unnamed/part_001`): session store, target reset on `select_first`,
  help-flag filtering, default population in `showBothSelects`,
  `allSelectionsMade`, `buildFinalCommand`;
* the `job` plugin (`src/cmd/job/main.go`): `Arg` schemas discovered from
  cron-job annotations, its `buildFinalCommand` with boolean-flag handling,
  and the field accesses of the `run` action handler;
* the command tokenizer `parseCommand` (identical in both files).

Go strings are embedded as `List Char`; Go maps (`map[string]string`) as
association lists with map-like lookup/upsert semantics (a missing key reads
as the zero value `""` where the source reads through an index expression,
and presence is tested where the source uses the comma-ok idiom); Go code
that can panic (out-of-range index) is embedded totally with `Option`, where
`none` marks the reachable panic.
-/

/-- Characters of a Go string. -/
abbrev Str := List Char

/-- Accumulator-style splitter behind `fields`: `acc` holds the characters of
the current (reversed) token. Mirrors `strings.Fields`, which splits around
runs of whitespace and never yields empty tokens. -/
def fieldsAux : List Char → List Char → List Str
  | [], acc => if acc = [] then [] else [acc.reverse]
  | c :: cs, acc =>
    if c.isWhitespace then
      if acc = [] then fieldsAux cs [] else acc.reverse :: fieldsAux cs []
    else
      fieldsAux cs (c :: acc)

/-- Embedding of Go `strings.Fields`: whitespace-separated tokens of `s`. -/
def fields (s : Str) : List Str := fieldsAux s []

/-- Embedding of Go `strings.Join(parts, " ")`. -/
def joinSpace : List Str → Str
  | [] => []
  | [t] => t
  | t :: ts => t ++ ' ' :: joinSpace ts

theorem fieldsAux_append (t : Str) (s : List Char) (acc : List Char)
    (ht : ∀ c ∈ t, c.isWhitespace = false) :
    fieldsAux (t ++ s) acc = fieldsAux s (t.reverse ++ acc) := by
  induction t generalizing acc with
  | nil => simp
  | cons c t ih =>
    have hc : c.isWhitespace = false := ht c (by simp)
    simp only [List.cons_append, fieldsAux, hc, Bool.false_eq_true, if_false, List.append_eq]
    rw [ih (c :: acc) (fun x hx => ht x (by simp [hx]))]
    simp

theorem fieldsAux_tokens (s : List Char) (acc : List Char)
    (hacc : ∀ c ∈ acc, c.isWhitespace = false) :
    ∀ t ∈ fieldsAux s acc, t ≠ [] ∧ ∀ c ∈ t, c.isWhitespace = false := by
  induction s generalizing acc with
  | nil =>
    intro t ht
    by_cases h : acc = []
    · simp [fieldsAux, h] at ht
    · simp only [fieldsAux, h, if_false, List.mem_singleton] at ht
      subst ht
      refine ⟨by simpa [List.reverse_eq_nil_iff] using h, ?_⟩
      intro c hc
      exact hacc c (by simpa using hc)
  | cons c cs ih =>
    intro t ht
    by_cases hw : c.isWhitespace
    · by_cases ha : acc = []
      · simp only [fieldsAux, hw, ha, if_true] at ht
        exact ih [] (by simp) t ht
      · simp only [fieldsAux, hw, ha, if_true, if_false, List.mem_cons] at ht
        rcases ht with rfl | ht
        · refine ⟨by simpa [List.reverse_eq_nil_iff] using ha, ?_⟩
          intro x hx
          exact hacc x (by simpa using hx)
        · exact ih [] (by simp) t ht
    · simp only [fieldsAux, hw, if_false] at ht
      refine ih (c :: acc) ?_ t ht
      intro x hx
      rcases List.mem_cons.1 hx with rfl | hx
      · simpa using hw
      · exact hacc x hx

/-- Every token produced by `fields` is non-empty and whitespace-free. -/
theorem fields_tokens (s : Str) :
    ∀ t ∈ fields s, t ≠ [] ∧ ∀ c ∈ t, c.isWhitespace = false :=
  fieldsAux_tokens s [] (by simp)

/-- Splitting a single-space join of non-empty whitespace-free tokens
recovers exactly the tokens. -/
theorem fields_joinSpace (l : List Str)
    (hl : ∀ t ∈ l, t ≠ [] ∧ ∀ c ∈ t, c.isWhitespace = false) :
    fields (joinSpace l) = l := by
  induction l with
  | nil => rfl
  | cons t ts ih =>
    obtain ⟨hne, hsp⟩ := hl t (by simp)
    cases ts with
    | nil =>
      show fieldsAux (joinSpace [t]) [] = [t]
      have hjt : joinSpace [t] = t ++ [] := by simp [joinSpace]
      rw [hjt, fieldsAux_append t [] [] hsp]
      simp [fieldsAux, List.reverse_eq_nil_iff, hne]
    | cons t2 ts2 =>
      have hrest : ∀ u ∈ t2 :: ts2, u ≠ [] ∧ ∀ c ∈ u, c.isWhitespace = false :=
        fun u hu => hl u (by simp [hu])
      show fieldsAux (joinSpace (t :: t2 :: ts2)) [] = _
      have hj : joinSpace (t :: t2 :: ts2) = t ++ ' ' :: joinSpace (t2 :: ts2) := rfl
      rw [hj, fieldsAux_append t (' ' :: joinSpace (t2 :: ts2)) [] hsp]
      have hsp1 : (' ' : Char).isWhitespace = true := by decide
      simp only [fieldsAux, hsp1, if_true, List.append_nil, List.reverse_eq_nil_iff, hne,
        if_false, List.reverse_reverse]
      have hih := ih hrest
      unfold fields at hih
      rw [hih]

/-- Embedding of `parseCommand` (`src/unnamed/part_001` lines 118-125,
`src/cmd/job/main.go` lines 214-221): split the command on whitespace; with
more than one field return `(parts[1], strings.Join(parts[2:], " "))`, else
the zero values `("", "")`. -/
def parseCommand (cmd : Str) : Str × Str :=
  match fields cmd with
  | _ :: action :: rest => (action, joinSpace rest)
  | _ => ([], [])

/-- C10: `parseCommand` returns the second whitespace-separated field as the
action and the remaining fields joined by single spaces as the value; a
command with fewer than two fields parses to the empty action and empty
value; runs of whitespace collapse, witnessed by the value re-splitting into
exactly the remaining fields of the original command. -/
theorem c10_parseCommand_spec (cmd : Str) :
    ((fields cmd).length < 2 → parseCommand cmd = ([], [])) ∧
    (∀ p a rest, fields cmd = p :: a :: rest →
      parseCommand cmd = (a, joinSpace rest) ∧
      fields ((parseCommand cmd).2) = rest) := by
  constructor
  · intro h
    unfold parseCommand
    cases hfc : fields cmd with
    | nil => rfl
    | cons x xs =>
      cases xs with
      | nil => rfl
      | cons y ys =>
        rw [hfc] at h
        simp at h
        omega
  · intro p a rest hf
    have hp : parseCommand cmd = (a, joinSpace rest) := by
      unfold parseCommand
      rw [hf]
    refine ⟨hp, ?_⟩
    rw [hp]
    exact fields_joinSpace rest (fun t ht => fields_tokens cmd t (by rw [hf]; simp [ht]))

/-- Concrete input for the C10 witness. -/
def w10cmd : Str := ("msg run a  b").data

theorem c10_witness :
    parseCommand w10cmd = (("run").data, ("a b").data) := by
  have h := (c10_parseCommand_spec w10cmd).2 (("msg").data) (("run").data)
      [("a").data, ("b").data] (by decide)
  rw [h.1]
  decide

/-- Embedding of the field accesses of the `job` plugin `run` handler
(`src/cmd/job/main.go` lines 123-128): `fields := strings.Fields(value)`,
then `fields[0]`, `fields[1]` and `fields[2:]` with no length check. `none`
marks the out-of-range panic reached when fewer than two fields exist. -/
def runFieldAccesses (value : Str) : Option (Str × Str × List Str) :=
  match fields value with
  | f0 :: f1 :: rest => some (f0, f1, rest)
  | _ => none

/-- C9: the `run` handler accesses succeed exactly when the payload has at
least two whitespace-separated fields, in which case they return the first
field, the second field, and the tail from index 2; with fewer fields the
accesses are out of bounds (the `none` error branch of the total embedding). -/
theorem c9_run_fields_bounds (value : Str) :
    ((runFieldAccesses value).isSome ↔ 2 ≤ (fields value).length) ∧
    (∀ f0 f1 rest, runFieldAccesses value = some (f0, f1, rest) →
      fields value = f0 :: f1 :: rest ∧ rest = (fields value).drop 2) := by
  constructor
  · unfold runFieldAccesses
    cases hfc : fields value with
    | nil => simp
    | cons x xs =>
      cases xs with
      | nil => simp
      | cons y ys => simp
  · intro f0 f1 rest h
    unfold runFieldAccesses at h
    cases hfc : fields value with
    | nil => rw [hfc] at h; exact absurd h (by simp)
    | cons x xs =>
      cases xs with
      | nil => rw [hfc] at h; exact absurd h (by simp)
      | cons y ys =>
        rw [hfc] at h
        simp only [Option.some.injEq, Prod.mk.injEq] at h
        obtain ⟨h0, h1, h2⟩ := h
        subst h0; subst h1; subst h2
        exact ⟨rfl, rfl⟩

theorem c9_witness :
    fields (("cron1 ns1 -i").data) = [("cron1").data, ("ns1").data, ("-i").data] ∧
    runFieldAccesses (("a").data) = none := by
  constructor
  · have h := (c9_run_fields_bounds (("cron1 ns1 -i").data)).2
      (("cron1").data) (("ns1").data) [("-i").data] (by decide)
    exact h.1
  · decide

/-! ## Association-list embedding of Go `map[string]string` -/

/-- First-match association lookup; `none` when the key is absent. -/
def lookupA {α : Type} : List (Str × α) → Str → Option α
  | [], _ => none
  | (k, v) :: rest, key => if key = k then some v else lookupA rest key

/-- Remove every binding of key `key`. -/
def eraseK {α : Type} : List (Str × α) → Str → List (Str × α)
  | [], _ => []
  | (k, v) :: rest, key => if k = key then eraseK rest key else (k, v) :: eraseK rest key

/-- Go map assignment `m[k] = v`: replace any binding of `k` by `v`. -/
def upsert {α : Type} (l : List (Str × α)) (k : Str) (v : α) : List (Str × α) :=
  eraseK l k ++ [(k, v)]

/-- A per-conversation selection store (`map[string]string` in the source). -/
abbrev Store := List (Str × Str)

/-- Go map read `m[k]`: the zero value `""` when the key is absent. -/
def getS (st : Store) (k : Str) : Str := (lookupA st k).getD []

theorem lookupA_eraseK_self {α : Type} (l : List (Str × α)) (k : Str) :
    lookupA (eraseK l k) k = none := by
  induction l with
  | nil => rfl
  | cons p rest ih =>
    obtain ⟨k0, v0⟩ := p
    by_cases h : k0 = k
    · simp [eraseK, h, ih]
    · simp [eraseK, lookupA, h, Ne.symm h, ih]

theorem lookupA_eraseK_ne {α : Type} (l : List (Str × α)) (k k' : Str) (h : k' ≠ k) :
    lookupA (eraseK l k) k' = lookupA l k' := by
  induction l with
  | nil => rfl
  | cons p rest ih =>
    obtain ⟨k0, v0⟩ := p
    by_cases h0 : k0 = k
    · subst h0
      simp [eraseK, lookupA, h, ih]
    · by_cases h1 : k' = k0
      · simp [eraseK, lookupA, h0, h1]
      · simp [eraseK, lookupA, h0, h1, ih]

theorem lookupA_append_left {α : Type} (l1 l2 : List (Str × α)) (k : Str) (v : α)
    (h : lookupA l1 k = some v) :
    lookupA (l1 ++ l2) k = some v := by
  induction l1 with
  | nil => exact absurd h (by simp [lookupA])
  | cons p rest ih =>
    obtain ⟨k0, v0⟩ := p
    by_cases h0 : k = k0
    · simp [lookupA, h0] at h ⊢
      exact h
    · simp [lookupA, h0] at h ⊢
      exact ih h

theorem lookupA_append_right {α : Type} (l1 l2 : List (Str × α)) (k : Str)
    (h : lookupA l1 k = none) :
    lookupA (l1 ++ l2) k = lookupA l2 k := by
  induction l1 with
  | nil => rfl
  | cons p rest ih =>
    obtain ⟨k0, v0⟩ := p
    by_cases h0 : k = k0
    · simp [lookupA, h0] at h
    · simp [lookupA, h0] at h ⊢
      exact ih h

theorem lookupA_upsert_self {α : Type} (l : List (Str × α)) (k : Str) (v : α) :
    lookupA (upsert l k v) k = some v := by
  unfold upsert
  rw [lookupA_append_right _ _ _ (lookupA_eraseK_self l k)]
  simp [lookupA]

theorem lookupA_upsert_ne {α : Type} (l : List (Str × α)) (k k' : Str) (v : α)
    (h : k' ≠ k) :
    lookupA (upsert l k v) k' = lookupA l k' := by
  unfold upsert
  cases hc : lookupA (eraseK l k) k' with
  | none =>
    rw [lookupA_append_right _ _ _ hc, ← lookupA_eraseK_ne l k k' h, hc]
    simp [lookupA, h]
  | some v0 =>
    rw [lookupA_append_left _ _ _ _ hc, ← lookupA_eraseK_ne l k k' h, hc]

theorem lookupA_not_mem {α : Type} (l : List (Str × α)) (k : Str)
    (h : k ∉ l.map Prod.fst) : lookupA l k = none := by
  induction l with
  | nil => rfl
  | cons p rest ih =>
    obtain ⟨k0, v0⟩ := p
    simp only [List.map_cons, List.mem_cons] at h
    push_neg at h
    simp [lookupA, h.1, ih h.2]

theorem mem_of_lookupA {α : Type} (l : List (Str × α)) (k : Str) (v : α)
    (h : lookupA l k = some v) : (k, v) ∈ l := by
  induction l with
  | nil => exact absurd h (by simp [lookupA])
  | cons p rest ih =>
    obtain ⟨k0, v0⟩ := p
    by_cases h0 : k = k0
    · simp only [lookupA, h0, if_true, Option.some.injEq] at h
      simp [h0, h]
    · simp only [lookupA, h0, if_false] at h
      exact List.mem_cons_of_mem _ (ih h)

theorem lookupA_of_mem {α : Type} (l : List (Str × α)) (k : Str) (v : α)
    (hnd : (l.map Prod.fst).Nodup) (hm : (k, v) ∈ l) : lookupA l k = some v := by
  induction l with
  | nil => simp at hm
  | cons p rest ih =>
    obtain ⟨k0, v0⟩ := p
    rw [List.map_cons] at hnd
    have hnd' : (rest.map Prod.fst).Nodup := (List.nodup_cons.1 hnd).2
    have hk0 : k0 ∉ rest.map Prod.fst := (List.nodup_cons.1 hnd).1
    rcases List.mem_cons.1 hm with heq | hm'
    · injection heq with h1 h2
      subst h1
      subst h2
      simp [lookupA]
    · have hk : k ∈ rest.map Prod.fst := List.mem_map.2 ⟨(k, v), hm', rfl⟩
      have hne : k ≠ k0 := fun hkk => hk0 (hkk ▸ hk)
      simp only [lookupA, hne, if_false]
      exact ih hnd' hm'

theorem lookupA_isSome_of_mem_keys {α : Type} (l : List (Str × α)) (k : Str)
    (h : k ∈ l.map Prod.fst) : ∃ v, lookupA l k = some v := by
  induction l with
  | nil => simp at h
  | cons p rest ih =>
    obtain ⟨k0, v0⟩ := p
    by_cases h0 : k = k0
    · exact ⟨v0, by simp [lookupA, h0]⟩
    · simp only [List.map_cons, List.mem_cons, h0, false_or] at h
      obtain ⟨v, hv⟩ := ih h
      exact ⟨v, by simp [lookupA, h0, hv]⟩

/-- Lookups agree on two association lists holding the same entries, whatever
the insertion order. -/
theorem lookupA_perm {α : Type} (l1 l2 : List (Str × α)) (hperm : l1.Perm l2)
    (hnd : (l1.map Prod.fst).Nodup) (k : Str) :
    lookupA l1 k = lookupA l2 k := by
  have hnd2 : (l2.map Prod.fst).Nodup := ((hperm.map Prod.fst).nodup_iff).1 hnd
  cases h1 : lookupA l1 k with
  | some v =>
    exact (lookupA_of_mem l2 k v hnd2 (hperm.mem_iff.1 (mem_of_lookupA l1 k v h1))).symm
  | none =>
    have hk : k ∉ l1.map Prod.fst := by
      intro hmem
      obtain ⟨v, hv⟩ := lookupA_isSome_of_mem_keys l1 k hmem
      rw [h1] at hv
      cases hv
    exact (lookupA_not_mem l2 k (fun hm => hk ((hperm.map Prod.fst).mem_iff.2 hm))).symm

/-- Build a store by performing the given map assignments in order, starting
from `st`. -/
def applyUpserts {α : Type} (entries : List (Str × α)) (st : List (Str × α)) :
    List (Str × α) :=
  entries.foldl (fun s p => upsert s p.1 p.2) st

theorem lookupA_applyUpserts {α : Type} (entries : List (Str × α))
    (st : List (Str × α)) (k : Str) (hnd : (entries.map Prod.fst).Nodup) :
    lookupA (applyUpserts entries st) k =
      match lookupA entries k with
      | some v => some v
      | none => lookupA st k := by
  induction entries generalizing st with
  | nil => rfl
  | cons p rest ih =>
    obtain ⟨k0, v0⟩ := p
    rw [List.map_cons] at hnd
    have hnd' : (rest.map Prod.fst).Nodup := (List.nodup_cons.1 hnd).2
    have hk0 : k0 ∉ rest.map Prod.fst := (List.nodup_cons.1 hnd).1
    show lookupA (applyUpserts rest (upsert st k0 v0)) k = _
    rw [ih (upsert st k0 v0) hnd']
    by_cases h : k = k0
    · subst h
      rw [lookupA_not_mem rest k hk0, lookupA_upsert_self]
      simp [lookupA]
    · cases hr : lookupA rest k with
      | some v => simp [lookupA, h, hr]
      | none => simp [lookupA, h, hr, lookupA_upsert_ne st k0 k v0 h]

/-- On an initially empty store, performing distinct-key assignments yields a
store whose lookups are exactly the association lookups of the entry list. -/
theorem lookupA_applyUpserts_nil {α : Type} (entries : List (Str × α)) (k : Str)
    (hnd : (entries.map Prod.fst).Nodup) :
    lookupA (applyUpserts entries []) k = lookupA entries k := by
  rw [lookupA_applyUpserts entries [] k hnd]
  cases lookupA entries k <;> rfl

/-! ## msg plugin data model (`src/unnamed/part_001`) -/

/-- One parameter record of the script's `--json-help` output (`Option` in
`src/unnamed/part_001` lines 31-37; renamed to avoid Lean's `Option`). -/
structure ScriptOption where
  flags : List Str
  description : Str
  values : List Str
  default : Str
  type : Str
deriving DecidableEq

/-- Go `Flags[0]`. The source indexes without a bound check, so this embedding
is faithful exactly on options with non-empty `flags`; theorems that need it
carry that hypothesis. -/
def head0 (l : List Str) : Str := l.headD []

/-- The reserved store key of the target-resource ("first") selection. -/
def firstKey : Str := ("first").data

/-- The sentinel help flag skipped by the UI and completeness check. -/
def hFlag : Str := ("-h").data

def boolT : Str := ("bool").data

def dropdownT : Str := ("dropdown").data

def textT : Str := ("text").data

def trueS : Str := ("true").data

/-- Composite state key `fmt.Sprintf("%s-%s", target, flag)`. -/
def flagKey (target flag : Str) : Str := target ++ '-' :: flag

/-- The `select_first` case of msg `Execute` (`src/unnamed/part_001` lines
88-97): when the stored `"first"` entry differs from the newly selected
value, every key of the session map is deleted; then `"first"` is stored. -/
def selectFirst (st : Store) (value : Str) : Store :=
  upsert (if getS st firstKey = value then st else []) firstKey value

/-- C3: changing the target resource to a different value clears all
parameter entries before the new target is stored, leaving a selection that
holds only the new target; re-selecting the stored target keeps every
existing parameter entry. -/
theorem c3_selectFirst_reset (st : Store) (value : Str) :
    (getS st firstKey ≠ value →
      lookupA (selectFirst st value) firstKey = some value ∧
      ∀ k, k ≠ firstKey → lookupA (selectFirst st value) k = none) ∧
    (getS st firstKey = value →
      lookupA (selectFirst st value) firstKey = some value ∧
      ∀ k, k ≠ firstKey → lookupA (selectFirst st value) k = lookupA st k) := by
  constructor
  · intro h
    unfold selectFirst
    rw [if_neg h]
    refine ⟨lookupA_upsert_self _ _ _, ?_⟩
    intro k hk
    rw [lookupA_upsert_ne _ _ _ _ hk]
    rfl
  · intro h
    unfold selectFirst
    rw [if_pos h]
    exact ⟨lookupA_upsert_self _ _ _, fun k hk => lookupA_upsert_ne _ _ _ _ hk⟩

/-- Concrete store for the C3 witness: a target plus one parameter entry. -/
def c3store : Store := [(firstKey, ("a").data), (("x").data, ("y").data)]

theorem c3_witness :
    lookupA (selectFirst c3store (("b").data)) firstKey = some (("b").data) ∧
    lookupA (selectFirst c3store (("b").data)) (("x").data) = none ∧
    lookupA (selectFirst c3store (("a").data)) (("x").data) = some (("y").data) := by
  have hdiff := (c3_selectFirst_reset c3store (("b").data)).1 (by decide)
  have hsame := (c3_selectFirst_reset c3store (("a").data)).2 (by decide)
  exact ⟨hdiff.1, hdiff.2 (("x").data) (by decide),
    by rw [hsame.2 (("x").data) (by decide)]; decide⟩

/-- `allSelectionsMade` (`src/unnamed/part_001` lines 321-331): walk the
options; skip those whose first flag is `"-h"`; fail on the first option
whose entry under `state["first"] ++ "-" ++ flag` is empty. -/
def allSelectionsMade (state : Store) : List ScriptOption → Bool
  | [] => true
  | o :: rest =>
    if head0 o.flags = hFlag then allSelectionsMade state rest
    else if getS state (flagKey (getS state firstKey) (head0 o.flags)) = [] then false
    else allSelectionsMade state rest

/-- C1: `allSelectionsMade` is true iff every option of the schema whose
flag is not the help sentinel `"-h"` has a non-empty entry in the store
under its composite key `target ++ "-" ++ flag`, the target being the
store's `"first"` entry; help options are exempt from the requirement. -/
theorem c1_allSelectionsMade_iff (state : Store) (options : List ScriptOption)
    (hfl : ∀ o ∈ options, o.flags ≠ []) :
    allSelectionsMade state options = true ↔
      ∀ o ∈ options, head0 o.flags ≠ hFlag →
        getS state (flagKey (getS state firstKey) (head0 o.flags)) ≠ [] := by
  induction options with
  | nil => simp [allSelectionsMade]
  | cons o rest ih =>
    have ih' := ih (fun x hx => hfl x (by simp [hx]))
    by_cases hh : head0 o.flags = hFlag
    · rw [show allSelectionsMade state (o :: rest) = allSelectionsMade state rest by
        simp [allSelectionsMade, hh], ih']
      constructor
      · intro h x hx hxh
        rcases List.mem_cons.1 hx with rfl | hx
        · exact absurd hh hxh
        · exact h x hx hxh
      · intro h x hx hxh
        exact h x (by simp [hx]) hxh
    · by_cases he : getS state (flagKey (getS state firstKey) (head0 o.flags)) = []
      · rw [show allSelectionsMade state (o :: rest) = false by
          simp [allSelectionsMade, hh, he]]
        constructor
        · intro h
          cases h
        · intro h
          exact absurd he (h o (by simp) hh)
      · rw [show allSelectionsMade state (o :: rest) = allSelectionsMade state rest by
          simp [allSelectionsMade, hh, he], ih']
        constructor
        · intro h x hx hxh
          rcases List.mem_cons.1 hx with rfl | hx
          · exact he
          · exact h x hx hxh
        · intro h x hx hxh
          exact h x (by simp [hx]) hxh

/-- Concrete schema for the C1 witness: one dropdown parameter and one help
parameter. -/
def c1opts : List ScriptOption :=
  [⟨[("-i").data], ("mode").data, [("a").data], [], ("dropdown").data⟩,
   ⟨[("-h").data], ("help").data, [], [], ("bool").data⟩]

/-- Concrete store for the C1 witness: target `j` and an entry for `-i`;
the help flag `-h` has no entry yet completeness holds. -/
def c1store : Store :=
  [(firstKey, ("j").data), (flagKey (("j").data) (("-i").data), ("-i a").data)]

theorem c1_witness : allSelectionsMade c1store c1opts = true := by
  rw [c1_allSelectionsMade_iff c1store c1opts (by decide)]
  decide

/-- The option loop of msg `buildFinalCommand` (`src/unnamed/part_001` lines
342-349): for each option in schema order, append the stored value verbatim
when the composite key is present with a non-empty value. -/
def partsLoop (state : Store) : List ScriptOption → List Str
  | [] => []
  | o :: rest =>
    (match lookupA state (flagKey (getS state firstKey) (head0 o.flags)) with
     | some v => if v = [] then [] else [v]
     | none => []) ++ partsLoop state rest

/-- `commandParts` of msg `buildFinalCommand` (`src/unnamed/part_001` lines
334-349): the `"first"` entry when present, then the option loop. -/
def commandParts (state : Store) (options : List ScriptOption) : List Str :=
  (match lookupA state firstKey with
   | some first => [first]
   | none => []) ++ partsLoop state options

/-- msg `buildFinalCommand` (`src/unnamed/part_001` lines 334-352):
`fmt.Sprintf("run %s", strings.Join(commandParts, " "))`. -/
def buildFinalCommand (state : Store) (options : List ScriptOption) : Str :=
  ("run ").data ++ joinSpace (commandParts state options)

theorem partsLoop_congr (st1 st2 : Store) (options : List ScriptOption)
    (h : ∀ k, lookupA st1 k = lookupA st2 k) :
    partsLoop st1 options = partsLoop st2 options := by
  have hg : ∀ k, getS st1 k = getS st2 k := by
    intro k
    unfold getS
    rw [h k]
  induction options with
  | nil => rfl
  | cons o rest ih =>
    unfold partsLoop
    rw [hg firstKey, h (flagKey (getS st2 firstKey) (head0 o.flags)), ih]

theorem commandParts_congr (st1 st2 : Store) (options : List ScriptOption)
    (h : ∀ k, lookupA st1 k = lookupA st2 k) :
    commandParts st1 options = commandParts st2 options := by
  unfold commandParts
  rw [h firstKey, partsLoop_congr st1 st2 options h]

/-- C2: assembling from two stores built by inserting the same key-value
entries in different orders yields the identical command string, and the
argument list follows the schema's declaration order: the option loop is a
`filterMap` over the schema list, never an iteration of the store. -/
theorem c2_buildFinalCommand_insertion_order (options : List ScriptOption)
    (l1 l2 : List (Str × Str)) (hperm : l1.Perm l2)
    (hnd : (l1.map Prod.fst).Nodup) :
    buildFinalCommand (applyUpserts l1 []) options
      = buildFinalCommand (applyUpserts l2 []) options ∧
    ∀ st : Store, partsLoop st options = options.filterMap (fun o =>
      match lookupA st (flagKey (getS st firstKey) (head0 o.flags)) with
      | some v => if v = [] then none else some v
      | none => none) := by
  constructor
  · have hnd2 : (l2.map Prod.fst).Nodup := ((hperm.map Prod.fst).nodup_iff).1 hnd
    have h : ∀ k, lookupA (applyUpserts l1 []) k = lookupA (applyUpserts l2 []) k := by
      intro k
      rw [lookupA_applyUpserts_nil l1 k hnd, lookupA_applyUpserts_nil l2 k hnd2]
      exact lookupA_perm l1 l2 hperm hnd k
    unfold buildFinalCommand
    rw [commandParts_congr _ _ options h]
  · intro st
    induction options with
    | nil => rfl
    | cons o rest ih =>
      unfold partsLoop
      rw [ih, List.filterMap_cons]
      cases hl : lookupA st (flagKey (getS st firstKey) (head0 o.flags)) with
      | none => simp
      | some v =>
        by_cases hv : v = []
        · simp [hv]
        · simp [hv]

/-- Entry lists for the C2 witness: the same two insertions in both orders. -/
def c2l1 : List (Str × Str) :=
  [(firstKey, ("j").data), (flagKey (("j").data) (("-i").data), ("-i a").data)]

def c2l2 : List (Str × Str) :=
  [(flagKey (("j").data) (("-i").data), ("-i a").data), (firstKey, ("j").data)]

theorem c2_witness :
    buildFinalCommand (applyUpserts c2l1 []) c1opts
      = buildFinalCommand (applyUpserts c2l2 []) c1opts := by
  exact (c2_buildFinalCommand_insertion_order c1opts c2l1 c2l2
    (List.Perm.swap _ _ _) (by decide)).1

/-! ## msg plugin UI plan builder (`showBothSelects`, `src/unnamed/part_001`) -/

def falseS : Str := ("false").data

/-- An abstract UI element of the rendered message: a dropdown select or a
plaintext input (the source's `api.Select` / `api.LabelInput`). -/
inductive UIElem where
  | dropdown (name : Str) (command : Str) (options : List (Str × Str))
      (initial : Option (Str × Str))
  | textInput (text : Str) (placeholder : Str)

/-- `cmdPrefix` of the msg plugin: bot-name placeholder, plugin name, action. -/
def cmdPrefix (cmd : Str) : Str := ("@Botkube msg ").data ++ cmd

/-- Dropdown options of one schema option: the declared values (or
`{true, false}` for booleans), each carrying value `"flag value"`. -/
def dropdownOptions (o : ScriptOption) : List (Str × Str) :=
  (if o.type = boolT then [trueS, falseS] else o.values).map
    (fun v => (v, head0 o.flags ++ ' ' :: v))

/-- Pre-selected option: the declared default when non-empty, else none. -/
def initialOptionOf (o : ScriptOption) : Option (Str × Str) :=
  if o.default ≠ [] then some (o.default, head0 o.flags ++ ' ' :: o.default)
  else none

/-- One iteration of the option loop of `showBothSelects`
(`src/unnamed/part_001` lines 230-291): skip the `"-h"` help option; for a
bool/dropdown option emit a dropdown and, when the store has no entry for
the option's composite key and a default is declared, write `"flag default"`
into the store; for a text option emit a plaintext input; anything else
contributes nothing. -/
def renderOption (first : Str) (st : Store) (o : ScriptOption) :
    List UIElem × Store :=
  if head0 o.flags = hFlag then ([], st)
  else if o.type = boolT ∨ o.type = dropdownT then
    ([UIElem.dropdown o.description
        (cmdPrefix (("select_dynamic ").data ++ flagKey first (head0 o.flags)))
        (dropdownOptions o) (initialOptionOf o)],
     if lookupA st (flagKey first (head0 o.flags)) = none ∧ o.default ≠ [] then
       upsert st (flagKey first (head0 o.flags)) (head0 o.flags ++ ' ' :: o.default)
     else st)
  else if o.type = textT then
    ([UIElem.textInput (("Filter output").data)
        (("Filter output by string (optional)").data)], st)
  else ([], st)

/-- The whole option loop: elements in schema order, threading the store. -/
def renderOptions (first : Str) : List ScriptOption → Store → List UIElem × Store
  | [], st => ([], st)
  | o :: rest, st =>
    ((renderOption first st o).1
       ++ (renderOptions first rest (renderOption first st o).2).1,
     (renderOptions first rest (renderOption first st o).2).2)

/-- The store side of `renderOption` in one closed form. -/
theorem renderOption_snd (first : Str) (st : Store) (o : ScriptOption) :
    (renderOption first st o).2 =
      if head0 o.flags ≠ hFlag ∧ (o.type = boolT ∨ o.type = dropdownT) ∧
          lookupA st (flagKey first (head0 o.flags)) = none ∧ o.default ≠ [] then
        upsert st (flagKey first (head0 o.flags)) (head0 o.flags ++ ' ' :: o.default)
      else st := by
  unfold renderOption
  by_cases h1 : head0 o.flags = hFlag
  · have hno : ¬(head0 o.flags ≠ hFlag ∧ (o.type = boolT ∨ o.type = dropdownT) ∧
        lookupA st (flagKey first (head0 o.flags)) = none ∧ o.default ≠ []) :=
      fun hc => hc.1 h1
    rw [if_pos h1, if_neg hno]
  · rw [if_neg h1]
    by_cases h2 : o.type = boolT ∨ o.type = dropdownT
    · rw [if_pos h2]
      by_cases h3 : lookupA st (flagKey first (head0 o.flags)) = none ∧ o.default ≠ []
      · have hyes : head0 o.flags ≠ hFlag ∧ (o.type = boolT ∨ o.type = dropdownT) ∧
            lookupA st (flagKey first (head0 o.flags)) = none ∧ o.default ≠ [] :=
          ⟨h1, h2, h3⟩
        rw [if_pos hyes]
        show (if lookupA st (flagKey first (head0 o.flags)) = none ∧ o.default ≠ [] then
            upsert st (flagKey first (head0 o.flags)) (head0 o.flags ++ ' ' :: o.default)
          else st) = _
        rw [if_pos h3]
      · have hno : ¬(head0 o.flags ≠ hFlag ∧ (o.type = boolT ∨ o.type = dropdownT) ∧
            lookupA st (flagKey first (head0 o.flags)) = none ∧ o.default ≠ []) :=
          fun hc => h3 hc.2.2
        show (if lookupA st (flagKey first (head0 o.flags)) = none ∧ o.default ≠ [] then
            upsert st (flagKey first (head0 o.flags)) (head0 o.flags ++ ' ' :: o.default)
          else st) = _
        rw [if_neg h3, if_neg hno]
    · have hno : ¬(head0 o.flags ≠ hFlag ∧ (o.type = boolT ∨ o.type = dropdownT) ∧
          lookupA st (flagKey first (head0 o.flags)) = none ∧ o.default ≠ []) :=
        fun hc => h2 hc.2.1
      rw [if_neg h2, if_neg hno]
      by_cases h4 : o.type = textT
      · rw [if_pos h4]
      · rw [if_neg h4]

theorem renderOption_preserves_ne (first : Str) (st : Store) (o : ScriptOption)
    (k : Str) (hk : k ≠ flagKey first (head0 o.flags)) :
    lookupA (renderOption first st o).2 k = lookupA st k := by
  rw [renderOption_snd]
  by_cases h : head0 o.flags ≠ hFlag ∧ (o.type = boolT ∨ o.type = dropdownT) ∧
      lookupA st (flagKey first (head0 o.flags)) = none ∧ o.default ≠ []
  · rw [if_pos h, lookupA_upsert_ne _ _ _ _ hk]
  · rw [if_neg h]

theorem renderOption_preserves_some (first : Str) (st : Store) (o : ScriptOption)
    (k : Str) (v : Str) (hv : lookupA st k = some v) :
    lookupA (renderOption first st o).2 k = some v := by
  rw [renderOption_snd]
  by_cases h : head0 o.flags ≠ hFlag ∧ (o.type = boolT ∨ o.type = dropdownT) ∧
      lookupA st (flagKey first (head0 o.flags)) = none ∧ o.default ≠ []
  · rw [if_pos h]
    by_cases hk : k = flagKey first (head0 o.flags)
    · subst hk
      rw [h.2.2.1] at hv
      cases hv
    · rw [lookupA_upsert_ne _ _ _ _ hk]
      exact hv
  · rw [if_neg h]
    exact hv

theorem renderOptions_preserves_some (first : Str) (options : List ScriptOption)
    (st : Store) (k : Str) (v : Str) (hv : lookupA st k = some v) :
    lookupA (renderOptions first options st).2 k = some v := by
  induction options generalizing st with
  | nil => exact hv
  | cons o rest ih =>
    show lookupA (renderOptions first rest (renderOption first st o).2).2 k = some v
    exact ih ((renderOption first st o).2) (renderOption_preserves_some first st o k v hv)

theorem renderOptions_preserves_nonkeys (first : Str) (options : List ScriptOption)
    (st : Store) (k : Str) (hk : ∀ o ∈ options, k ≠ flagKey first (head0 o.flags)) :
    lookupA (renderOptions first options st).2 k = lookupA st k := by
  induction options generalizing st with
  | nil => rfl
  | cons o rest ih =>
    show lookupA (renderOptions first rest (renderOption first st o).2).2 k = _
    rw [ih ((renderOption first st o).2) (fun x hx => hk x (by simp [hx])),
      renderOption_preserves_ne first st o k (hk o (by simp))]

/-- The flag component of a composite key is cancellative. -/
theorem flagKey_inj (target f1 f2 : Str) (h : flagKey target f1 = flagKey target f2) :
    f1 = f2 := by
  unfold flagKey at h
  have h2 := List.append_cancel_left h
  exact List.tail_eq_of_cons_eq h2

/-- The reserved `"first"` key is never a composite parameter key, as it
contains no dash. -/
theorem firstKey_ne_flagKey (target flag : Str) : firstKey ≠ flagKey target flag := by
  intro h
  have hd : '-' ∈ flagKey target flag := by simp [flagKey]
  rw [← h] at hd
  revert hd
  decide

/-- Rendering never touches the stored target selection. -/
theorem getS_renderOptions_firstKey (first : Str) (options : List ScriptOption)
    (st : Store) :
    getS (renderOptions first options st).2 firstKey = getS st firstKey := by
  unfold getS
  rw [renderOptions_preserves_nonkeys first options st firstKey
    (fun o _ => firstKey_ne_flagKey first (head0 o.flags))]

/-- The option loop of the command assembler is a `filterMap` of the schema
list (shared helper; also the order statement behind the assembler claims). -/
theorem partsLoop_eq_filterMap (st : Store) (options : List ScriptOption) :
    partsLoop st options = options.filterMap (fun o =>
      match lookupA st (flagKey (getS st firstKey) (head0 o.flags)) with
      | some v => if v = [] then none else some v
      | none => none) := by
  induction options with
  | nil => rfl
  | cons o rest ih =>
    unfold partsLoop
    rw [ih, List.filterMap_cons]
    cases hl : lookupA st (flagKey (getS st firstKey) (head0 o.flags)) with
    | none => simp
    | some v =>
      by_cases hv : v = []
      · simp [hv]
      · simp [hv]

/-- C8: parameters whose flag is the help sentinel `"-h"` are filtered out
before the UI layer: rendering a schema produces exactly the elements and
store of rendering the schema with its help parameters removed, so no
dropdown or text input corresponds to a help parameter. -/
theorem c8_help_filtered (first : Str) (options : List ScriptOption) (st : Store) :
    renderOptions first options st
      = renderOptions first (options.filter (fun o => decide (head0 o.flags ≠ hFlag))) st := by
  induction options generalizing st with
  | nil => rfl
  | cons o rest ih =>
    by_cases hh : head0 o.flags = hFlag
    · have h1 : renderOption first st o = ([], st) := by
        unfold renderOption
        rw [if_pos hh]
      have hf : (o :: rest).filter (fun x => decide (head0 x.flags ≠ hFlag))
          = rest.filter (fun x => decide (head0 x.flags ≠ hFlag)) := by
        simp [List.filter_cons, hh]
      rw [hf]
      show ((renderOption first st o).1
            ++ (renderOptions first rest (renderOption first st o).2).1,
          (renderOptions first rest (renderOption first st o).2).2)
          = renderOptions first (rest.filter (fun x => decide (head0 x.flags ≠ hFlag))) st
      rw [h1]
      dsimp only
      rw [ih st]
      simp
    · have hf : (o :: rest).filter (fun x => decide (head0 x.flags ≠ hFlag))
          = o :: rest.filter (fun x => decide (head0 x.flags ≠ hFlag)) := by
        simp [List.filter_cons, hh]
      rw [hf]
      unfold renderOptions
      rw [ih ((renderOption first st o).2)]

/-- Population of declared defaults by the render loop, for schemas with
distinct flags. -/
theorem renderOptions_populates (first : Str) (options : List ScriptOption)
    (st : Store) (hnd : (options.map (fun o => head0 o.flags)).Nodup) :
    ∀ o ∈ options, head0 o.flags ≠ hFlag → (o.type = boolT ∨ o.type = dropdownT) →
      o.default ≠ [] → lookupA st (flagKey first (head0 o.flags)) = none →
      lookupA (renderOptions first options st).2 (flagKey first (head0 o.flags))
        = some (head0 o.flags ++ ' ' :: o.default) := by
  induction options generalizing st with
  | nil =>
    intro o ho
    simp at ho
  | cons o' rest ih =>
    rw [List.map_cons] at hnd
    have hnd' := (List.nodup_cons.1 hnd).2
    have hnotin := (List.nodup_cons.1 hnd).1
    intro o ho hh ht hd hn
    rcases List.mem_cons.1 ho with rfl | ho'
    · have hpop : (renderOption first st o).2
          = upsert st (flagKey first (head0 o.flags)) (head0 o.flags ++ ' ' :: o.default) := by
        rw [renderOption_snd, if_pos ⟨hh, ht, hn, hd⟩]
      show lookupA (renderOptions first rest (renderOption first st o).2).2 _ = _
      exact renderOptions_preserves_some first rest _ _ _
        (by rw [hpop]; exact lookupA_upsert_self _ _ _)
    · have hneflag : head0 o'.flags ≠ head0 o.flags := by
        intro he
        have hhm : head0 o.flags ∈ rest.map (fun x => head0 x.flags) :=
          List.mem_map.2 ⟨o, ho', rfl⟩
        rw [he] at hnotin
        exact hnotin hhm
      have hkne : flagKey first (head0 o.flags) ≠ flagKey first (head0 o'.flags) :=
        fun he => hneflag (flagKey_inj first _ _ he).symm
      have hn' : lookupA (renderOption first st o').2 (flagKey first (head0 o.flags)) = none := by
        rw [renderOption_preserves_ne first st o' _ hkne]
        exact hn
      show lookupA (renderOptions first rest (renderOption first st o').2).2 _ = _
      exact ih _ hnd' o ho' hh ht hd hn'

/-- The render loop's only store mutations are default writes: each key is
either untouched or receives the `"flag default"` entry of a non-help
bool/dropdown option with a declared default that had no entry. -/
theorem renderOptions_only_defaults (first : Str) (options : List ScriptOption)
    (st : Store) :
    ∀ k, lookupA (renderOptions first options st).2 k = lookupA st k ∨
      ∃ o, o ∈ options ∧ k = flagKey first (head0 o.flags) ∧
        lookupA st k = none ∧ o.default ≠ [] ∧
        (o.type = boolT ∨ o.type = dropdownT) ∧ head0 o.flags ≠ hFlag ∧
        lookupA (renderOptions first options st).2 k
          = some (head0 o.flags ++ ' ' :: o.default) := by
  induction options generalizing st with
  | nil =>
    intro k
    left
    rfl
  | cons o' rest ih =>
    intro k
    rcases ih ((renderOption first st o').2) k with hL |
      ⟨o, ho, hk, hnone, hdef, htype, hhelp, hfinal⟩
    · by_cases hpop : head0 o'.flags ≠ hFlag ∧ (o'.type = boolT ∨ o'.type = dropdownT) ∧
          lookupA st (flagKey first (head0 o'.flags)) = none ∧ o'.default ≠ []
      · by_cases hk : k = flagKey first (head0 o'.flags)
        · right
          refine ⟨o', by simp, hk, by rw [hk]; exact hpop.2.2.1, hpop.2.2.2, hpop.2.1,
            hpop.1, ?_⟩
          show lookupA (renderOptions first rest (renderOption first st o').2).2 k = _
          rw [hL, renderOption_snd, if_pos hpop, hk]
          exact lookupA_upsert_self _ _ _
        · left
          show lookupA (renderOptions first rest (renderOption first st o').2).2 k = _
          rw [hL, renderOption_preserves_ne first st o' k hk]
      · have hst1 : (renderOption first st o').2 = st := by
          rw [renderOption_snd, if_neg hpop]
        left
        show lookupA (renderOptions first rest (renderOption first st o').2).2 k = _
        rw [hL, hst1]
    · right
      refine ⟨o, by simp [ho], hk, ?_, hdef, htype, hhelp, hfinal⟩
      cases hst : lookupA st k with
      | none => rfl
      | some v =>
        have hs := renderOption_preserves_some first st o' k v hst
        rw [hs] at hnone
        simp at hnone

/-- Text-typed parameter with a declared default, for the C5 counterexample. -/
def c5textOpt : ScriptOption :=
  ⟨[("-n").data], ("namespace").data, [], ("prod").data, ("text").data⟩

/-- Store holding only the target selection `j`. -/
def c5txstore : Store := [(firstKey, ("j").data)]

/-- C5 counterexample: a text-typed parameter with declared default `prod`
and no entry gets no default written by the render loop (the population
side effect exists only in the bool/dropdown branch), and consequently it is
absent from the assembled command, contradicting the claim for every
parameter with a declared default. -/
theorem c5_counterexample :
    lookupA (renderOptions (("j").data) [c5textOpt] c5txstore).2
        (flagKey (("j").data) (("-n").data)) = none ∧
    buildFinalCommand (renderOptions (("j").data) [c5textOpt] c5txstore).2 [c5textOpt]
      = ("run j").data := by
  decide

/-- C5 (amended): for every non-help bool- or dropdown-typed parameter with
a declared default and no entry yet under its composite key, rendering
writes the default-derived entry `"flag default"` into the state, and the
entry consequently appears in the assembled command; and these default
writes are the only store mutations rendering performs — every other key
reads back unchanged. -/
theorem c5_default_population (first : Str) (st : Store) (options : List ScriptOption)
    (hnd : (options.map (fun o => head0 o.flags)).Nodup)
    (hfirst : getS st firstKey = first) :
    (∀ o ∈ options, head0 o.flags ≠ hFlag → (o.type = boolT ∨ o.type = dropdownT) →
      o.default ≠ [] → lookupA st (flagKey first (head0 o.flags)) = none →
      lookupA (renderOptions first options st).2 (flagKey first (head0 o.flags))
        = some (head0 o.flags ++ ' ' :: o.default) ∧
      (head0 o.flags ++ ' ' :: o.default)
        ∈ commandParts (renderOptions first options st).2 options) ∧
    (∀ k, lookupA (renderOptions first options st).2 k = lookupA st k ∨
      ∃ o, o ∈ options ∧ k = flagKey first (head0 o.flags) ∧
        lookupA st k = none ∧ o.default ≠ [] ∧
        (o.type = boolT ∨ o.type = dropdownT) ∧ head0 o.flags ≠ hFlag ∧
        lookupA (renderOptions first options st).2 k
          = some (head0 o.flags ++ ' ' :: o.default)) := by
  refine ⟨?_, renderOptions_only_defaults first options st⟩
  intro o ho hh ht hd hn
  have hl := renderOptions_populates first options st hnd o ho hh ht hd hn
  refine ⟨hl, ?_⟩
  have hfirst2 : getS (renderOptions first options st).2 firstKey = first := by
    rw [getS_renderOptions_firstKey]
    exact hfirst
  unfold commandParts
  apply List.mem_append_right
  rw [partsLoop_eq_filterMap]
  apply List.mem_filterMap.2
  refine ⟨o, ho, ?_⟩
  rw [hfirst2, hl]
  simp

/-- Boolean parameter with declared default `false`, for the C5 witness. -/
def c5boolOpt : ScriptOption :=
  ⟨[("-i").data], ("incremental").data, [], ("false").data, ("bool").data⟩

theorem c5_witness :
    lookupA (renderOptions (("j").data) [c5boolOpt] c5txstore).2
        (flagKey (("j").data) (head0 c5boolOpt.flags))
      = some (head0 c5boolOpt.flags ++ ' ' :: c5boolOpt.default) ∧
    (head0 c5boolOpt.flags ++ ' ' :: c5boolOpt.default)
      ∈ commandParts (renderOptions (("j").data) [c5boolOpt] c5txstore).2 [c5boolOpt] :=
  (c5_default_population (("j").data) c5txstore [c5boolOpt] (by decide) (by decide)).1
    c5boolOpt (by decide) (by decide) (by decide) (by decide) (by decide)

/-! ## msg plugin handler outcomes (`showBothSelects` error paths) -/

/-- Outcome of one handler invocation: a rendered message, or process
termination (the source's `log.Fatalf`). -/
inductive ExecResult where
  | output (plaintext : Str) (elems : List UIElem) (runSection : Option Str)
  | fatal (text : Str)

/-- msg `showBothSelects` (`src/unnamed/part_001` lines 187-318), with its
two external capabilities passed as results: the `/scripts` directory
listing (`getFileOptions`) and the schema discovery (`runScript`). On either
failure the source calls `log.Fatalf`, which terminates the plugin process:
embedded as `.fatal` with the formatted message and no UI rendered. On
success it renders the job-name select, the option elements (threading the
default-population writes), and, once `allSelectionsMade` holds, the Run
section with the assembled command. -/
def showBothSelects (fileList : Except Str (List Str))
    (script : Except Str (List ScriptOption)) (st : Store) : ExecResult × Store :=
  match fileList with
  | .error e => (.fatal (("Error retrieving file options: ").data ++ e), st)
  | .ok fl =>
    match script with
    | .error e => (.fatal (("Error running script: ").data ++ e), st)
    | .ok opts =>
      (.output (("Selected from the dropdowns. Now run the command if ready.").data)
        (UIElem.dropdown (("Job Name").data) (cmdPrefix (("select_first").data))
            (fl.map (fun f => (f, f)))
            (some (getS st firstKey, getS st firstKey))
          :: (renderOptions (getS st firstKey) opts st).1)
        (if allSelectionsMade (renderOptions (getS st firstKey) opts st).2 opts then
          some (buildFinalCommand (renderOptions (getS st firstKey) opts st).2 opts)
        else none),
       (renderOptions (getS st firstKey) opts st).2)

/-- C6: the claim is violated by the code. When schema discovery fails (and
likewise when the directory listing fails) the handler does not return a
user-visible error message: it reaches `log.Fatalf`, terminating the host
process. The embedding evaluates the code at the failing input and shows
the `.fatal` outcome, with the selection state untouched. -/
theorem c6_discovery_failure_fatal (fl : List Str) (e : Str) (st : Store) :
    showBothSelects (Except.ok fl) (Except.error e) st
      = (ExecResult.fatal ((("Error running script: ").data ++ e)), st) ∧
    showBothSelects (Except.error e) (Except.ok ([] : List ScriptOption)) st
      = (ExecResult.fatal ((("Error retrieving file options: ").data ++ e)), st) :=
  ⟨rfl, rfl⟩

/-! ## Session keying of the msg plugin `Execute` -/

/-- The session identifier used by `Execute`: the source fixes the constant
`"default_session"` for every conversation (`src/unnamed/part_001` line 80,
`src/unnamed/part_002` line 64), ignoring which conversation is handled. -/
def sessionID (conversationID : Str) : Str := ("default_session").data

/-- The plugin-level state: one store per session key. -/
abbrev Sessions := List (Str × Store)

/-- The store `Execute` reads for a conversation (initialized empty when
absent, `src/unnamed/part_001` lines 83-85). -/
def sessionStateOf (sessions : Sessions) (conversationID : Str) : Store :=
  (lookupA sessions (sessionID conversationID)).getD []

/-- The state effect of `Execute` on action `select_first`
(`src/unnamed/part_001` lines 80-97): fetch or initialize the store under
the session key, apply the target-selection reset, store it back. -/
def executeSelectFirst (sessions : Sessions) (conversationID value : Str) : Sessions :=
  upsert sessions (sessionID conversationID)
    (selectFirst (sessionStateOf sessions conversationID) value)

/-- C7: the claim is violated by the code. The session key is the same
constant for every conversation, so a `select_first` performed by
conversation B is visible in the state read for conversation A: starting
from the empty plugin state, where A reads target `""`, B selecting
`job-x` makes A read target `job-x`. -/
theorem c7_session_cross_talk :
    (∀ a b : Str, sessionID a = sessionID b) ∧
    ("conv-A").data ≠ ("conv-B").data ∧
    getS (sessionStateOf [] (("conv-A").data)) firstKey = [] ∧
    getS (sessionStateOf
        (executeSelectFirst [] (("conv-B").data) (("job-x").data)) (("conv-A").data))
      firstKey = ("job-x").data :=
  ⟨fun _ _ => rfl, by decide, by decide, by decide⟩

/-! ## job plugin command assembler (`src/cmd/job/main.go`) -/

/-- Occurrences of a string in a list of argument parts. -/
def countS (a : Str) : List Str → Nat
  | [] => 0
  | b :: r => (if b = a then 1 else 0) + countS a r

theorem countS_append (a : Str) (l1 l2 : List Str) :
    countS a (l1 ++ l2) = countS a l1 + countS a l2 := by
  induction l1 with
  | nil => simp [countS]
  | cons b r ih => simp [countS, ih, Nat.add_assoc]

/-- One argument record of the `botkubeJobArgs` annotation
(`src/cmd/job/main.go` lines 55-61). -/
structure Arg where
  flag : Str
  description : Str
  type : Str
  default : Str
  values : List Str
deriving DecidableEq

/-- The conversation state of the job plugin (`stateDetails`,
`src/cmd/job/main.go` lines 175-178). -/
structure stateDetails where
  job : Str
  params : Store
deriving DecidableEq

/-- One option's contribution to the parts of the job plugin
`buildFinalCommand` (`src/cmd/job/main.go` lines 440-451). The part starts
as `"Flag stored"`; for a `bool` option the source inspects
`strings.Fields(stored)[1]` with no length check — `none` embeds that
out-of-range panic — keeping the bare flag `strings.Fields(stored)[0]` when
the second field is `"true"` and skipping the option (`continue`) otherwise. -/
def argPart (d : stateDetails) (o : Arg) : Option (List Str) :=
  if o.type = boolT then
    match fields (getS d.params (flagKey d.job o.flag)) with
    | f0 :: f1 :: _ => if f1 = trueS then some [f0] else some []
    | _ => none
  else some [o.flag ++ ' ' :: getS d.params (flagKey d.job o.flag)]

/-- The option loop of the job `buildFinalCommand`, in schema order. -/
def collectParts (d : stateDetails) : List Arg → Option (List Str)
  | [] => some []
  | o :: rest =>
    match argPart d o, collectParts d rest with
    | some ps, some rs => some (ps ++ rs)
    | _, _ => none

/-- The job plugin `buildFinalCommand` (`src/cmd/job/main.go` lines 432-455):
job name and namespace first, then the option contributions in schema order,
joined by spaces under the `"job run"` prefix. (Named with a `Job` suffix:
the msg variant's assembler above already carries the source name.) -/
def buildFinalCommandJob (options : List Arg) (ns : Str) (d : stateDetails) :
    Option Str :=
  (collectParts d options).map (fun parts =>
    ("job run ").data ++ joinSpace (d.job :: ns :: parts))

/-- Unset boolean parameter for the C4 counterexample. -/
def c4iArg : Arg := ⟨("-i").data, ("incremental").data, ("bool").data, [], []⟩

/-- C4 counterexample: with the boolean parameter unset (stored value `""`),
the assembler yields no command at all — `strings.Fields("")[1]` is out of
range (a Go panic, `none` in the total embedding) — rather than a command
with the flag absent as the claim states. -/
theorem c4_counterexample :
    buildFinalCommandJob [c4iArg] (("ns1").data) ⟨("cron1").data, []⟩ = none := by
  decide

theorem fields_two (a b : Str)
    (ha : a ≠ [] ∧ ∀ c ∈ a, c.isWhitespace = false)
    (hb : b ≠ [] ∧ ∀ c ∈ b, c.isWhitespace = false) :
    fields (a ++ ' ' :: b) = [a, b] := by
  have h := fields_joinSpace [a, b] (by
    intro t ht
    rcases List.mem_cons.1 ht with rfl | ht
    · exact ha
    · rcases List.mem_cons.1 ht with rfl | ht
      · exact hb
      · simp at ht)
  rw [show joinSpace [a, b] = a ++ ' ' :: b from rfl] at h
  exact h

theorem argPart_bool_true (d : stateDetails) (o : Arg) (hbool : o.type = boolT)
    (hst : getS d.params (flagKey d.job o.flag) = o.flag ++ ' ' :: trueS)
    (hf : o.flag ≠ [] ∧ ∀ c ∈ o.flag, c.isWhitespace = false) :
    argPart d o = some [o.flag] := by
  unfold argPart
  rw [if_pos hbool, hst, fields_two o.flag trueS hf (by constructor <;> decide)]
  simp

theorem argPart_bool_false (d : stateDetails) (o : Arg) (hbool : o.type = boolT)
    (hst : getS d.params (flagKey d.job o.flag) = o.flag ++ ' ' :: falseS)
    (hf : o.flag ≠ [] ∧ ∀ c ∈ o.flag, c.isWhitespace = false) :
    argPart d o = some [] := by
  unfold argPart
  rw [if_pos hbool, hst, fields_two o.flag falseS hf (by constructor <;> decide)]
  show (if falseS = trueS then some [o.flag] else some []) = some []
  rw [if_neg (by decide)]

theorem argPart_nonbool (d : stateDetails) (o : Arg) (hnb : o.type ≠ boolT) :
    argPart d o = some [o.flag ++ ' ' :: getS d.params (flagKey d.job o.flag)] := by
  unfold argPart
  rw [if_neg hnb]

/-- A spaced part never coincides with a whitespace-free flag token. -/
theorem spaced_ne_flag (x y f : Str) (hf : ∀ c ∈ f, c.isWhitespace = false) :
    x ++ ' ' :: y ≠ f := by
  intro he
  have hsp : (' ' : Char) ∈ f := by
    rw [← he]
    simp
  exact absurd (hf ' ' hsp) (by decide)

/-- Under canonically formatted boolean stores, options whose flags differ
from `f` contribute parts in which `f` does not occur. -/
theorem collectParts_count_zero (d : stateDetails) (f : Str) (options : List Arg)
    (hne : ∀ oo ∈ options, oo.flag ≠ f)
    (hflags : ∀ oo ∈ options, oo.flag ≠ [] ∧ ∀ c ∈ oo.flag, c.isWhitespace = false)
    (hcanon : ∀ oo ∈ options, oo.type = boolT →
      getS d.params (flagKey d.job oo.flag) = oo.flag ++ ' ' :: trueS ∨
      getS d.params (flagKey d.job oo.flag) = oo.flag ++ ' ' :: falseS)
    (hfsp : ∀ c ∈ f, c.isWhitespace = false) :
    ∃ parts, collectParts d options = some parts ∧ countS f parts = 0 := by
  induction options with
  | nil => exact ⟨[], rfl, rfl⟩
  | cons oo rest ih =>
    obtain ⟨restParts, hrest, hcount⟩ := ih
      (fun x hx => hne x (by simp [hx]))
      (fun x hx => hflags x (by simp [hx]))
      (fun x hx => hcanon x (by simp [hx]))
    have hooin : oo ∈ oo :: rest := by simp
    have hhead : ∃ hc, argPart d oo = some hc ∧ countS f hc = 0 := by
      by_cases hb : oo.type = boolT
      · rcases hcanon oo hooin hb with hT | hF
        · refine ⟨[oo.flag], argPart_bool_true d oo hb hT (hflags oo hooin), ?_⟩
          simp [countS, hne oo hooin]
        · exact ⟨[], argPart_bool_false d oo hb hF (hflags oo hooin), rfl⟩
      · refine ⟨[oo.flag ++ ' ' :: getS d.params (flagKey d.job oo.flag)],
          argPart_nonbool d oo hb, ?_⟩
        simp [countS, spaced_ne_flag _ _ f hfsp]
    obtain ⟨hc, hap, hczero⟩ := hhead
    refine ⟨hc ++ restParts, ?_, ?_⟩
    · unfold collectParts
      rw [hap, hrest]
    · rw [countS_append, hczero, hcount]

/-- C4 (amended): in the job assembler, a boolean parameter stored as
`"flag true"` contributes the bare flag, occurring exactly once among the
command's parts, and one stored as `"flag false"` leaves the flag absent;
an unset boolean parameter does not yield a flag-free command — the
assembler's field access is out of bounds (see the counterexample). -/
theorem c4_bool_flag_roundtrip (options : List Arg) (ns : Str) (d : stateDetails)
    (o : Arg) (ho : o ∈ options)
    (hnd : (options.map Arg.flag).Nodup)
    (hbool : o.type = boolT)
    (hflags : ∀ oo ∈ options, oo.flag ≠ [] ∧ ∀ c ∈ oo.flag, c.isWhitespace = false)
    (hcanon : ∀ oo ∈ options, oo.type = boolT →
      getS d.params (flagKey d.job oo.flag) = oo.flag ++ ' ' :: trueS ∨
      getS d.params (flagKey d.job oo.flag) = oo.flag ++ ' ' :: falseS)
    (hjob : d.job ≠ o.flag) (hns : ns ≠ o.flag) :
    ∃ parts, collectParts d options = some parts ∧
      (getS d.params (flagKey d.job o.flag) = o.flag ++ ' ' :: trueS →
        countS o.flag (d.job :: ns :: parts) = 1) ∧
      (getS d.params (flagKey d.job o.flag) = o.flag ++ ' ' :: falseS →
        countS o.flag (d.job :: ns :: parts) = 0) := by
  induction options with
  | nil => simp at ho
  | cons oo rest ih =>
    rw [List.map_cons] at hnd
    have hnd' := (List.nodup_cons.1 hnd).2
    have hnotin := (List.nodup_cons.1 hnd).1
    have hooin : oo ∈ oo :: rest := by simp
    rcases List.mem_cons.1 ho with rfl | ho'
    · have hne_rest : ∀ r ∈ rest, r.flag ≠ o.flag := by
        intro r hr he
        exact hnotin (he ▸ List.mem_map.2 ⟨r, hr, rfl⟩)
      obtain ⟨restParts, hrest, hczero⟩ := collectParts_count_zero d o.flag rest
        hne_rest (fun x hx => hflags x (by simp [hx])) (fun x hx => hcanon x (by simp [hx]))
        (hflags o hooin).2
      rcases hcanon o hooin hbool with hT | hF
      · refine ⟨[o.flag] ++ restParts, ?_, ?_, ?_⟩
        · unfold collectParts
          rw [argPart_bool_true d o hbool hT (hflags o hooin), hrest]
        · intro _
          show countS o.flag (d.job :: ns :: ([o.flag] ++ restParts)) = 1
          simp [countS, countS_append, hjob, hns, hczero]
        · intro hF'
          rw [hT] at hF'
          have h3 := List.tail_eq_of_cons_eq (List.append_cancel_left hF')
          exact absurd h3 (by decide)
      · refine ⟨[] ++ restParts, ?_, ?_, ?_⟩
        · unfold collectParts
          rw [argPart_bool_false d o hbool hF (hflags o hooin), hrest]
        · intro hT'
          rw [hF] at hT'
          have h3 := List.tail_eq_of_cons_eq (List.append_cancel_left hT')
          exact absurd h3 (by decide)
        · intro _
          show countS o.flag (d.job :: ns :: ([] ++ restParts)) = 0
          simp [countS, hjob, hns, hczero]
    · obtain ⟨restParts, hrest, himpT, himpF⟩ := ih ho' hnd'
        (fun x hx => hflags x (by simp [hx])) (fun x hx => hcanon x (by simp [hx]))
      have hooflag_ne : oo.flag ≠ o.flag := by
        intro he
        have hm : o.flag ∈ rest.map Arg.flag := List.mem_map.2 ⟨o, ho', rfl⟩
        rw [he] at hnotin
        exact hnotin hm
      have hhead : ∃ hc, argPart d oo = some hc ∧ countS o.flag hc = 0 := by
        by_cases hb : oo.type = boolT
        · rcases hcanon oo hooin hb with hT | hF
          · exact ⟨[oo.flag], argPart_bool_true d oo hb hT (hflags oo hooin),
              by simp [countS, hooflag_ne]⟩
          · exact ⟨[], argPart_bool_false d oo hb hF (hflags oo hooin), rfl⟩
        · exact ⟨[oo.flag ++ ' ' :: getS d.params (flagKey d.job oo.flag)],
            argPart_nonbool d oo hb,
            by simp [countS, spaced_ne_flag _ _ o.flag (hflags o ho).2]⟩
      obtain ⟨hc, hap, hczero⟩ := hhead
      have hgoal : countS o.flag (d.job :: ns :: (hc ++ restParts))
          = countS o.flag (d.job :: ns :: restParts) := by
        simp [countS, countS_append, hczero]
      refine ⟨hc ++ restParts, ?_, ?_, ?_⟩
      · unfold collectParts
        rw [hap, hrest]
      · intro hT
        rw [hgoal]
        exact himpT hT
      · intro hF
        rw [hgoal]
        exact himpF hF

/-- Dropdown parameter accompanying the boolean one in the C4 witness. -/
def c4dArg : Arg :=
  ⟨("-n").data, ("namespace").data, ("dropdown").data, [], [("prod").data]⟩

/-- Concrete job-plugin state for the C4 witness: boolean `-i` stored
`"-i true"`, dropdown `-n` stored `"-n prod"`. -/
def c4state : stateDetails :=
  ⟨("cron1").data,
   [(flagKey (("cron1").data) (("-i").data), ("-i true").data),
    (flagKey (("cron1").data) (("-n").data), ("-n prod").data)]⟩

theorem c4_witness :
    ∃ parts, collectParts c4state [c4iArg, c4dArg] = some parts ∧
      countS (("-i").data) ((("cron1").data) :: (("ns1").data) :: parts) = 1 := by
  obtain ⟨parts, hp, himpT, _⟩ := c4_bool_flag_roundtrip [c4iArg, c4dArg] (("ns1").data)
    c4state c4iArg (by decide) (by decide) (by decide) (by decide) (by decide)
    (by decide) (by decide)
  exact ⟨parts, hp, himpT (by decide)⟩
